import Mathlib

/-!
# Verification of the Mind-Mate trend analysis engine

Shallow embedding of `backend/jac/engine.py` (the trend analysis and
mood-signal aggregation core): `_linear_slope`, the inner
`counts_by_emotion`, and `trend_analyzer`.

Modelling conventions:
* Instants are integers counting microseconds since the Unix epoch in UTC
  (Python `datetime` has microsecond resolution; the Unix epoch is midnight
  UTC, so `replace(hour=0, minute=0, second=0, microsecond=0)` is flooring
  to a multiple of a day).  Lean's `Int` division `/` is `Int.ediv`, which
  agrees with Python's floor division for the positive divisors used here.
* Python floats are modelled as `Rat`.
* The store (`JacRuntime.exec_ctx.mem`) is a list of records in iteration
  order; `mem.query` returns the records in that order.  `exec_ctx is None`
  is modelled by `Option` on the store.
* A journal record's raw `timestamp` field is abstracted by `TSVal`:
  `missing` (absent, `None`, or empty string — all falsy, skipped by
  `if not ts_raw`), `unparseable` (a string `datetime.fromisoformat`
  rejects, skipped by the `except` branch), or `parsed t` (a string that
  parses and normalizes to the UTC instant `t`).
* A mood tag is `MoodVal`: a string or a non-string value (skipped by
  `isinstance(m, str)`).
* A record whose attribute access would raise inside the per-record
  `try`/`except` blocks is modelled by `Record.corrupt`; the scan skips it.
-/

def usPerSec : Int := 1000000

def usPerDay : Int := 86400000000

/-- Model of `t.replace(hour=0, minute=0, second=0, microsecond=0)` for a UTC
datetime `t`: floor to the start of the UTC day. -/
def dayStart (t : Int) : Int := t / usPerDay * usPerDay

/-- Value found in the `moods_detected` list: a string tag, or any
non-string value (ignored by the scan). -/
inductive MoodVal
  | str (s : String)
  | nonstr
deriving DecidableEq

/-- Abstraction of the raw `timestamp` field of a JournalEntry record. -/
inductive TSVal
  | missing
  | unparseable
  | parsed (t : Int)
deriving DecidableEq

/-- Fields of a `JournalEntry` archetype as spawned by `log_mood`. -/
structure JournalEntry where
  id : String
  timestamp : TSVal
  text : String
  moods_detected : List MoodVal
  score : Option Rat
  user_id : String
deriving DecidableEq

/-- Fields of an `Emotion` archetype.  `trend` and `trend_score` are
attributes first assigned by `trend_analyzer`'s write-back, so they are
`Option`s (`none` = attribute not set). -/
structure Emotion where
  name : String
  valence : Rat
  intensity : Rat
  last_seen : Option String
  trend : Option String
  trend_score : Option Rat
deriving DecidableEq

/-- A record in the store: discriminated by `arch.__class__.__name__`.
`corrupt` stands for a record whose processing raises (caught and
skipped by the scan's `except` clauses). -/
inductive Record
  | journal (j : JournalEntry)
  | emotion (e : Emotion)
  | trigger (name : String)
  | corrupt
deriving DecidableEq

/-- The mapping `emotion -> counts per day`, in Python dict insertion
order. -/
abbrev CountsMap := List (String × List Nat)

def lookupCM : CountsMap → String → Option (List Nat)
  | [], _ => none
  | (k, v) :: rest, key => if k = key then some v else lookupCM rest key

/-- Model of `dict.setdefault(key, v)`: keep the map if the key is present,
otherwise append the new binding (Python dicts preserve insertion
order). -/
def setdefaultCM (m : CountsMap) (key : String) (v : List Nat) : CountsMap :=
  if (lookupCM m key).isSome then m else m ++ [(key, v)]

/-- Model of `counts_map[key][i] += 1` for a key already present. -/
def bumpCM : CountsMap → String → Nat → CountsMap
  | [], _, _ => []
  | (k, v) :: rest, key, i =>
    if k = key then (k, v.set i (v.getD i 0 + 1)) :: rest
    else (k, v) :: bumpCM rest key i

/-- The pre-seed loop body of `counts_by_emotion`: every `Emotion`
record seeds an all-zero array of length `days` (`[0] * days` is empty
when `days` is negative, hence `Int.toNat`). -/
def seedStep (days : Int) (m : CountsMap) : Record → CountsMap
  | .emotion e => setdefaultCM m e.name (List.replicate days.toNat 0)
  | _ => m

/-- The scan loop body of `counts_by_emotion`: bin the mood occurrences
of one record.  Non-journal records, missing or unparseable timestamps,
instants outside `[start, endT]`, and day indices outside `[0, days)`
contribute nothing. -/
def scanStep (start endT days : Int) (m : CountsMap) : Record → CountsMap
  | .journal j =>
    match j.timestamp with
    | .missing => m
    | .unparseable => m
    | .parsed t =>
      if ¬(start ≤ t ∧ t ≤ endT) then m
      else
        let dayIdx := (dayStart t - start) / usPerDay
        if dayIdx < 0 ∨ dayIdx ≥ days then m
        else
          j.moods_detected.foldl (fun acc mv =>
            match mv with
            | .str s =>
              bumpCM (setdefaultCM acc s (List.replicate days.toNat 0)) s dayIdx.toNat
            | .nonstr => acc) m
  | _ => m

/-- Model of `counts_by_emotion(start, end, days)`: pre-seed with every Emotion
record, then scan every JournalEntry record and bin mood occurrences. -/
def counts_by_emotion (store : List Record) (start endT days : Int) : CountsMap :=
  store.foldl (scanStep start endT days) (store.foldl (seedStep days) [])

/-- Model of `_linear_slope(y)`: least-squares slope of `y` against `x = 0..n-1`. -/
def _linear_slope (y : List Rat) : Rat :=
  let n := y.length
  if n = 0 then 0
  else
    let xs := List.range n
    let sx : Rat := (xs.map (fun x : Nat => (x : Rat))).sum
    let sy : Rat := y.sum
    let sxx : Rat := (xs.map (fun x : Nat => (x : Rat) * (x : Rat))).sum
    let sxy : Rat := ((xs.zip y).map (fun p => (p.1 : Rat) * p.2)).sum
    let denom := (n : Rat) * sxx - sx * sx
    if denom = 0 then 0
    else ((n : Rat) * sxy - sx * sy) / denom

/-- The per-emotion statistics record built by `trend_analyzer`. -/
structure EmoStats where
  slope : Rat
  mean : Rat
  norm_slope : Rat
  trend : String
deriving DecidableEq

/-- The trend classification of `trend_analyzer` (lines 193–197):
`trend = "stable"`, overwritten to `"rising"` when `norm_slope > 0.15`
and to `"falling"` when `norm_slope < -0.15`. -/
def classifyTrend (norm_slope : Rat) : String :=
  if norm_slope > 15 / 100 then "rising"
  else if norm_slope < -(15 / 100) then "falling"
  else "stable"

/-- The statistics `trend_analyzer` derives from one count array:
`slope = _linear_slope(counts)`, `mean = sum(counts) / max(1, len(counts))`,
`norm_slope = slope / max(1.0, mean)`, `trend` via `classifyTrend`. -/
def emoStatsOf (counts : List Nat) : EmoStats :=
  let slope := _linear_slope (counts.map (fun c : Nat => (c : Rat)))
  let mean : Rat := ((counts.sum : Nat) : Rat) / ((max 1 counts.length : Nat) : Rat)
  let norm_slope := slope / max 1 mean
  { slope := slope, mean := mean, norm_slope := norm_slope,
    trend := classifyTrend norm_slope }

/-- The write-back loop of `trend_analyzer` (lines 201–210): set
`trend`/`trend_score` on the first Emotion record whose `name` matches,
then `break`; if none matches, the store is unchanged. -/
def updateEmotion : List Record → String → String → Rat → List Record
  | [], _, _, _ => []
  | r :: rest, name, tr, sc =>
    match r with
    | .emotion e =>
      if e.name = name then
        .emotion { e with trend := some tr, trend_score := some sc } :: rest
      else r :: updateEmotion rest name tr sc
    | _ => r :: updateEmotion rest name tr sc

/-- The stats loop of `trend_analyzer` (lines 189–210): for each emotion
of `current` in order, record its statistics and write the trend back to
the store. -/
def statsFold (cur : CountsMap) (store : List Record) :
    List (String × EmoStats) × List Record :=
  cur.foldl (fun acc p =>
    let st := emoStatsOf p.2
    (acc.1 ++ [(p.1, st)], updateEmotion acc.2 p.1 st.trend st.norm_slope))
    ([], store)

/-- Computation of `window_start`: start of day, `window_days` days before `now`. -/
def windowStart (now window_days : Int) : Int :=
  dayStart (now - window_days * usPerDay)

/-- Computation of `compare_start`: start of day, `compare_days` days before
`window_start`. -/
def compareStart (now window_days compare_days : Int) : Int :=
  dayStart (windowStart now window_days - compare_days * usPerDay)

/-- The value `trend_analyzer` returns. -/
structure AnalyzerOut where
  current : CountsMap
  prev : CountsMap
  stats : List (String × EmoStats)
deriving DecidableEq

/-- Model of `trend_analyzer(window_days, compare_days)` at instant `now`, with
the ambient store passed explicitly (`none` models
`JacRuntime.exec_ctx is None`).  Returns the result dict and the store
after the write-back. -/
def trend_analyzer (exec_ctx : Option (List Record)) (now window_days compare_days : Int) :
    AnalyzerOut × Option (List Record) :=
  match exec_ctx with
  | none => ({ current := [], prev := [], stats := [] }, none)
  | some store =>
    let ws := windowStart now window_days
    let cs := compareStart now window_days compare_days
    let current := counts_by_emotion store ws now window_days
    let prev := counts_by_emotion store cs (ws - usPerSec) compare_days
    let sf := statsFold current store
    ({ current := current, prev := prev, stats := sf.1 }, some sf.2)

def lookupSE : List (String × EmoStats) → String → Option EmoStats
  | [], _ => none
  | (k, v) :: rest, key => if k = key then some v else lookupSE rest key

/-- Test for the write-back's match condition: the record is an Emotion
with the given name. -/
def isEmotionNamed (name : String) : Record → Bool
  | .emotion e => e.name = name
  | _ => false

/-! ## Helper lemmas -/

lemma trend_analyzer_some_eq (store : List Record) (now wd cd : Int) :
    trend_analyzer (some store) now wd cd =
      ({ current := counts_by_emotion store (windowStart now wd) now wd,
         prev := counts_by_emotion store (compareStart now wd cd)
                   (windowStart now wd - usPerSec) cd,
         stats := (statsFold (counts_by_emotion store (windowStart now wd) now wd) store).1 },
       some (statsFold (counts_by_emotion store (windowStart now wd) now wd) store).2) := rfl

lemma classifyTrend_cases (ns : Rat) :
    (classifyTrend ns = "rising" ↔ ns > 15 / 100) ∧
    (classifyTrend ns = "falling" ↔ ns < -(15 / 100)) ∧
    (classifyTrend ns = "stable" ↔ ¬(ns > 15 / 100) ∧ ¬(ns < -(15 / 100))) := by
  unfold classifyTrend
  split_ifs with h1 h2
  · exact ⟨⟨fun _ => h1, fun _ => rfl⟩,
      ⟨fun h => absurd h (by decide), fun h => absurd h1 (by linarith)⟩,
      ⟨fun h => absurd h (by decide), fun h => absurd h1 h.1⟩⟩
  · exact ⟨⟨fun h => absurd h (by decide), fun h => absurd h h1⟩,
      ⟨fun _ => h2, fun _ => rfl⟩,
      ⟨fun h => absurd h (by decide), fun h => absurd h2 h.2⟩⟩
  · exact ⟨⟨fun h => absurd h (by decide), fun h => absurd h h1⟩,
      ⟨fun h => absurd h (by decide), fun h => absurd h h2⟩,
      ⟨fun _ => ⟨h1, h2⟩, fun _ => rfl⟩⟩

/-! ## C8 -/

/-- C8: with no runtime/store context (`exec_ctx is None`), `trend_analyzer`
returns exactly `{"current": {}, "prev": {}, "stats": {}}` and does not
raise, for every choice of `window_days`, `compare_days` (and instant). -/
theorem trend_analyzer_degraded_context (now wd cd : Int) :
    trend_analyzer none now wd cd = ({ current := [], prev := [], stats := [] }, none) := rfl

/-! ## C6 -/

/-- C6: for `window_days ≥ 1` and `compare_days ≥ 1`, the prev window's
upper bound (`window_start` minus one second) strictly precedes the
current window's lower bound (`window_start`), and no instant satisfies
both windows' bounds. -/
theorem prev_window_no_overlap (now wd cd : Int) (hw : 1 ≤ wd) (hc : 1 ≤ cd) :
    windowStart now wd - usPerSec < windowStart now wd ∧
    ∀ t : Int, ¬((compareStart now wd cd ≤ t ∧ t ≤ windowStart now wd - usPerSec) ∧
      (windowStart now wd ≤ t ∧ t ≤ now)) := by
  refine ⟨by unfold usPerSec; omega, ?_⟩
  rintro t ⟨⟨_, h2⟩, h3, _⟩
  unfold usPerSec at h2
  omega

theorem prev_window_no_overlap_witness :
    windowStart 0 7 - usPerSec < windowStart 0 7 ∧
    ¬((compareStart 0 7 7 ≤ windowStart 0 7 ∧
        windowStart 0 7 ≤ windowStart 0 7 - usPerSec) ∧
      (windowStart 0 7 ≤ windowStart 0 7 ∧ windowStart 0 7 ≤ 0)) :=
  ⟨(prev_window_no_overlap 0 7 7 (by decide) (by decide)).1,
   (prev_window_no_overlap 0 7 7 (by decide) (by decide)).2 (windowStart 0 7)⟩

/-! ## C3 -/

/-- C3: the classifier computes `norm_slope = slope / max(1.0, mean)` and
assigns `"rising"` iff `norm_slope > 0.15`, `"falling"` iff
`norm_slope < -0.15`, `"stable"` otherwise; `norm_slope = 0.15` exactly is
`"stable"` (strict inequality) and `0.1501` is `"rising"`. -/
theorem classifier_thresholds :
    (∀ s m : Rat,
      (classifyTrend (s / max 1 m) = "rising" ↔ s / max 1 m > 15 / 100) ∧
      (classifyTrend (s / max 1 m) = "falling" ↔ s / max 1 m < -(15 / 100)) ∧
      (classifyTrend (s / max 1 m) = "stable" ↔
        ¬(s / max 1 m > 15 / 100) ∧ ¬(s / max 1 m < -(15 / 100)))) ∧
    (∀ counts : List Nat,
      (emoStatsOf counts).norm_slope =
        (emoStatsOf counts).slope / max 1 (emoStatsOf counts).mean ∧
      (emoStatsOf counts).trend = classifyTrend ((emoStatsOf counts).norm_slope)) ∧
    classifyTrend (15 / 100) = "stable" ∧ classifyTrend (1501 / 10000) = "rising" := by
  refine ⟨fun s m => classifyTrend_cases (s / max 1 m), fun counts => ⟨rfl, rfl⟩, ?_, ?_⟩
  · have h := (classifyTrend_cases (15 / 100)).2.2
    exact h.mpr ⟨by norm_num, by norm_num⟩
  · have h := (classifyTrend_cases (1501 / 10000)).1
    exact h.mpr (by norm_num)

/-! ## C4 -/

/-- Sum `Σx` for `x = 0..n-1` (the `sx` of `_linear_slope`). -/
def sumX (n : Nat) : Rat := ((List.range n).map (fun x : Nat => (x : Rat))).sum

/-- Sum `Σx²` for `x = 0..n-1` (the `sxx` of `_linear_slope`). -/
def sumXX (n : Nat) : Rat :=
  ((List.range n).map (fun x : Nat => (x : Rat) * (x : Rat))).sum

/-- Sum `Σ(x·y)` (the `sxy` of `_linear_slope`). -/
def sumXY (y : List Rat) : Rat :=
  (((List.range y.length).zip y).map (fun p => (p.1 : Rat) * p.2)).sum

lemma sumX_eq (n : Nat) : sumX n = (n : Rat) * ((n : Rat) - 1) / 2 := by
  induction n with
  | zero => simp [sumX]
  | succ k ih =>
    rw [sumX, List.range_succ, List.map_append, List.sum_append]
    rw [show ((List.range k).map (fun x : Nat => (x : Rat))).sum = sumX k from rfl, ih]
    push_cast
    simp
    ring

lemma sumXX_eq (n : Nat) :
    sumXX n = (n : Rat) * ((n : Rat) - 1) * (2 * (n : Rat) - 1) / 6 := by
  induction n with
  | zero => simp [sumXX]
  | succ k ih =>
    rw [sumXX, List.range_succ, List.map_append, List.sum_append]
    rw [show ((List.range k).map (fun x : Nat => (x : Rat) * (x : Rat))).sum
          = sumXX k from rfl, ih]
    push_cast
    simp
    ring

lemma slope_denom_pos (n : Nat) (hn : 2 ≤ n) :
    0 < (n : Rat) * sumXX n - sumX n * sumX n := by
  rw [sumX_eq, sumXX_eq]
  have h2 : (2 : Rat) ≤ (n : Rat) := by exact_mod_cast hn
  have key : (n : Rat) * ((n : Rat) * ((n : Rat) - 1) * (2 * (n : Rat) - 1) / 6) -
      (n : Rat) * ((n : Rat) - 1) / 2 * ((n : Rat) * ((n : Rat) - 1) / 2) =
      (n : Rat) ^ 2 * ((n : Rat) - 1) * ((n : Rat) + 1) / 12 := by ring
  rw [key]
  have h0 : (0 : Rat) < (n : Rat) ^ 2 := by positivity
  have h1 : (0 : Rat) < (n : Rat) - 1 := by linarith
  have h3 : (0 : Rat) < (n : Rat) + 1 := by linarith
  positivity

/-- C4: `_linear_slope` returns 0 for the empty list and for every
singleton (degenerate denominator); for every list of length ≥ 2 the
denominator `n·Σx² − (Σx)²` is nonzero and the result is exactly
`(n·Σxy − Σx·Σy) / (n·Σx² − (Σx)²)`; and `_linear_slope [1,2,3,4] = 1`. -/
theorem linear_slope_spec :
    _linear_slope [] = 0 ∧
    (∀ x : Rat, _linear_slope [x] = 0) ∧
    (∀ y : List Rat, 2 ≤ y.length →
      (y.length : Rat) * sumXX y.length - sumX y.length * sumX y.length ≠ 0 ∧
      _linear_slope y = ((y.length : Rat) * sumXY y - sumX y.length * y.sum) /
        ((y.length : Rat) * sumXX y.length - sumX y.length * sumX y.length)) ∧
    _linear_slope [1, 2, 3, 4] = 1 := by
  refine ⟨rfl, ?_, ?_, by norm_num [_linear_slope, List.range, List.range.loop, sumXY]⟩
  · intro x
    show (if (1 : Nat) = 0 then (0 : Rat) else _) = 0
    norm_num [List.range, List.range.loop]
  · intro y hy
    have hd := slope_denom_pos y.length hy
    refine ⟨ne_of_gt hd, ?_⟩
    unfold _linear_slope
    rw [if_neg (by omega : ¬y.length = 0)]
    simp only []
    rw [show ((List.range y.length).map (fun x : Nat => (x : Rat))).sum
          = sumX y.length from rfl]
    rw [show ((List.range y.length).map (fun x : Nat => (x : Rat) * (x : Rat))).sum
          = sumXX y.length from rfl]
    rw [show (((List.range y.length).zip y).map (fun p => (p.1 : Rat) * p.2)).sum
          = sumXY y from rfl]
    rw [if_neg (ne_of_gt hd)]

theorem linear_slope_spec_witness :
    _linear_slope [3] = 0 ∧
    (2 ≤ ([1, 2, 3, 4] : List Rat).length ∧
      _linear_slope [1, 2, 3, 4] =
        ((([1, 2, 3, 4] : List Rat).length : Rat) * sumXY [1, 2, 3, 4] -
            sumX ([1, 2, 3, 4] : List Rat).length * ([1, 2, 3, 4] : List Rat).sum) /
          ((([1, 2, 3, 4] : List Rat).length : Rat) * sumXX ([1, 2, 3, 4] : List Rat).length -
            sumX ([1, 2, 3, 4] : List Rat).length * sumX ([1, 2, 3, 4] : List Rat).length)) :=
  ⟨linear_slope_spec.2.1 3,
   by norm_num, (linear_slope_spec.2.2.1 [1, 2, 3, 4] (by norm_num)).2⟩

/-! ## C5 -/

/-- Every count array bound in the map has length `d`. -/
def AllLen (d : Nat) (m : CountsMap) : Prop := ∀ p ∈ m, p.2.length = d

lemma lookupCM_mem : ∀ (m : CountsMap) (k : String) (v : List Nat),
    lookupCM m k = some v → (k, v) ∈ m := by
  intro m
  induction m with
  | nil => intro k v h; simp [lookupCM] at h
  | cons p rest ih =>
    intro k v h
    obtain ⟨k0, v0⟩ := p
    by_cases hk : k0 = k
    · simp [lookupCM, hk] at h
      simp [hk, h]
    · simp [lookupCM, hk] at h
      exact List.mem_cons_of_mem _ (ih k v h)

lemma allLen_setdefault {d : Nat} {m : CountsMap} (hm : AllLen d m) (key : String)
    {v0 : List Nat} (hv : v0.length = d) : AllLen d (setdefaultCM m key v0) := by
  unfold setdefaultCM
  split
  · exact hm
  · intro p hp
    rcases List.mem_append.mp hp with h | h
    · exact hm p h
    · simp at h
      rw [h]
      exact hv

lemma allLen_bump {d : Nat} : ∀ {m : CountsMap}, AllLen d m → ∀ (key : String) (i : Nat),
    AllLen d (bumpCM m key i) := by
  intro m
  induction m with
  | nil => intro hm key i; exact hm
  | cons p rest ih =>
    intro hm key i
    obtain ⟨k0, v0⟩ := p
    have hrest : AllLen d rest := fun q hq => hm q (List.mem_cons_of_mem _ hq)
    unfold bumpCM
    split
    · intro q hq
      rcases List.mem_cons.mp hq with h | h
      · rw [h]
        simpa using hm (k0, v0) (List.mem_cons_self _ _)
      · exact hrest q h
    · intro q hq
      rcases List.mem_cons.mp hq with h | h
      · rw [h]; exact hm (k0, v0) (List.mem_cons_self _ _)
      · exact ih hrest key i q h

lemma allLen_seedStep {days : Int} {m : CountsMap} (hm : AllLen days.toNat m) (r : Record) :
    AllLen days.toNat (seedStep days m r) := by
  cases r with
  | emotion e => exact allLen_setdefault hm e.name (List.length_replicate _ _)
  | journal j => exact hm
  | trigger n => exact hm
  | corrupt => exact hm

lemma allLen_moodFold {days : Int} (dayIdx : Int) :
    ∀ (moods : List MoodVal) {m : CountsMap}, AllLen days.toNat m →
    AllLen days.toNat (moods.foldl (fun acc mv =>
      match mv with
      | .str s =>
        bumpCM (setdefaultCM acc s (List.replicate days.toNat 0)) s dayIdx.toNat
      | .nonstr => acc) m) := by
  intro moods
  induction moods with
  | nil => intro m hm; exact hm
  | cons mv rest ih =>
    intro m hm
    simp only [List.foldl_cons]
    cases mv with
    | str s =>
      exact ih (allLen_bump (allLen_setdefault hm s (List.length_replicate _ _)) s _)
    | nonstr => exact ih hm

lemma allLen_scanStep {start endT days : Int} {m : CountsMap}
    (hm : AllLen days.toNat m) (r : Record) :
    AllLen days.toNat (scanStep start endT days m r) := by
  cases r with
  | journal j =>
    simp only [scanStep]
    cases hts : j.timestamp with
    | missing => exact hm
    | unparseable => exact hm
    | parsed t =>
      simp only []
      split
      · exact hm
      · split
        · exact hm
        · exact allLen_moodFold _ j.moods_detected hm
  | emotion e => exact hm
  | trigger n => exact hm
  | corrupt => exact hm

lemma allLen_foldl {days : Int} (f : CountsMap → Record → CountsMap)
    (hf : ∀ (m : CountsMap) (r : Record), AllLen days.toNat m → AllLen days.toNat (f m r)) :
    ∀ (l : List Record) (m : CountsMap), AllLen days.toNat m → AllLen days.toNat (l.foldl f m) := by
  intro l
  induction l with
  | nil => intro m hm; exact hm
  | cons r rest ih => intro m hm; exact ih (f m r) (hf m r hm)

/-- C5: for every store state, every call `counts_by_emotion(start, end, days)`
with `days ≥ 0` maps every emotion key (pre-seeded or created during the
scan) to a count array of length exactly `days`. -/
theorem counts_length_invariant (store : List Record) (start endT days : Int)
    (hd : 0 ≤ days) (k : String) (v : List Nat)
    (hlk : lookupCM (counts_by_emotion store start endT days) k = some v) :
    (v.length : Int) = days := by
  have hall : AllLen days.toNat (counts_by_emotion store start endT days) := by
    unfold counts_by_emotion
    refine allLen_foldl _ (fun m r hm => allLen_scanStep hm r) store _ ?_
    refine allLen_foldl _ (fun m r hm => allLen_seedStep hm r) store _ ?_
    intro p hp
    simp at hp
  have := hall (k, v) (lookupCM_mem _ _ _ hlk)
  simp only at this
  omega

theorem counts_length_invariant_witness :
    ((([0, 0, 0] : List Nat).length : Int) = 3) :=
  counts_length_invariant
    [Record.emotion ⟨"joy", 0, 0, none, none, none⟩] 0 0 3 (by decide) "joy" [0, 0, 0]
    (by decide)

/-! ## Skip lemmas shared by C1, C2 and C7 -/

lemma scanStep_badts (start endT days : Int) (m : CountsMap) (j : JournalEntry)
    (h : j.timestamp = .missing ∨ j.timestamp = .unparseable) :
    scanStep start endT days m (.journal j) = m := by
  simp only [scanStep]
  rcases h with h | h <;> rw [h]

/-- Inserting a record on which both loop bodies act as the identity does
not change `counts_by_emotion`. -/
lemma counts_insert_inert (pre post : List Record) (r : Record) (start endT days : Int)
    (hseed : ∀ m, seedStep days m r = m)
    (hscan : ∀ m, scanStep start endT days m r = m) :
    counts_by_emotion (pre ++ r :: post) start endT days =
      counts_by_emotion (pre ++ post) start endT days := by
  unfold counts_by_emotion
  simp only [List.foldl_append, List.foldl_cons, hseed, hscan]

lemma scanStep_skip_sameday (m : CountsMap) (j : JournalEntry) (t now wd : Int)
    (hts : j.timestamp = .parsed t) (hday : dayStart t = dayStart now) :
    scanStep (windowStart now wd) now wd m (.journal j) = m := by
  simp only [scanStep, hts]
  by_cases h : windowStart now wd ≤ t ∧ t ≤ now
  · rw [if_neg (not_not_intro h)]
    have hidx : (dayStart t - windowStart now wd) / usPerDay = wd := by
      simp only [windowStart, dayStart, usPerDay] at hday ⊢
      omega
    rw [if_pos (Or.inr (le_of_eq hidx.symm))]
  · rw [if_pos h]

/-! ## C2 -/

/-- C2: a JournalEntry whose timestamp falls on the same UTC calendar day
as `now` is excluded from the current-window counts: its day offset equals
`window_days` (failing `day_idx < days`), so none of its mood tags are
counted, even though `window_start ≤ t ≤ now` holds. -/
theorem sameday_entry_excluded (pre post : List Record) (j : JournalEntry)
    (t now wd cd : Int) (hts : j.timestamp = .parsed t)
    (hday : dayStart t = dayStart now) (hwd : 1 ≤ wd) (htn : t ≤ now) :
    (windowStart now wd ≤ t ∧ t ≤ now) ∧
    (dayStart t - windowStart now wd) / usPerDay = wd ∧
    counts_by_emotion (pre ++ Record.journal j :: post) (windowStart now wd) now wd =
      counts_by_emotion (pre ++ post) (windowStart now wd) now wd ∧
    (trend_analyzer (some (pre ++ Record.journal j :: post)) now wd cd).1.current =
      (trend_analyzer (some (pre ++ post)) now wd cd).1.current := by
  have h1 : windowStart now wd ≤ t := by
    simp only [windowStart, dayStart, usPerDay] at hday ⊢
    omega
  have h2 : (dayStart t - windowStart now wd) / usPerDay = wd := by
    simp only [windowStart, dayStart, usPerDay] at hday ⊢
    omega
  have h3 := counts_insert_inert pre post (.journal j) (windowStart now wd) now wd
    (fun m => rfl) (fun m => scanStep_skip_sameday m j t now wd hts hday)
  exact ⟨⟨h1, htn⟩, h2, h3, h3⟩

def c2Now : Int := 1700000000000000

def c2Entry : JournalEntry :=
  { id := "je:2", timestamp := .parsed (c2Now - usPerSec), text := "hello",
    moods_detected := [.str "anxiety"], score := none, user_id := "u1" }

theorem sameday_entry_excluded_witness :
    (windowStart c2Now 1 ≤ c2Now - usPerSec ∧ c2Now - usPerSec ≤ c2Now) ∧
    (dayStart (c2Now - usPerSec) - windowStart c2Now 1) / usPerDay = 1 ∧
    counts_by_emotion ([] ++ Record.journal c2Entry :: []) (windowStart c2Now 1) c2Now 1 =
      counts_by_emotion ([] ++ []) (windowStart c2Now 1) c2Now 1 ∧
    (trend_analyzer (some ([] ++ Record.journal c2Entry :: [])) c2Now 1 1).1.current =
      (trend_analyzer (some ([] ++ [])) c2Now 1 1).1.current :=
  sameday_entry_excluded [] [] c2Entry (c2Now - usPerSec) c2Now 1 1 rfl
    (by decide) (by decide) (by decide)

/-! ## C7 -/

/-- C7: aggregation never aborts on a malformed record: a JournalEntry
whose timestamp is missing/null or fails ISO-8601 parsing contributes
nothing to the counts (skipped entirely, never partially counted), a
record whose per-entry processing raises is likewise skipped, and
`counts_by_emotion` returns the same result it computes over the
remaining records. -/
theorem malformed_entries_skipped (pre post : List Record) (r : Record)
    (start endT days : Int)
    (hr : (∃ j : JournalEntry, r = .journal j ∧
            (j.timestamp = .missing ∨ j.timestamp = .unparseable)) ∨ r = .corrupt) :
    counts_by_emotion (pre ++ r :: post) start endT days =
      counts_by_emotion (pre ++ post) start endT days := by
  rcases hr with ⟨j, rfl, hts⟩ | rfl
  · exact counts_insert_inert pre post _ start endT days
      (fun m => rfl) (fun m => scanStep_badts start endT days m j hts)
  · exact counts_insert_inert pre post _ start endT days
      (fun m => rfl) (fun m => rfl)

def c7Bad : JournalEntry :=
  { id := "je:bad", timestamp := .missing, text := "", moods_detected := [.str "joy"],
    score := none, user_id := "u1" }

def c7Good : JournalEntry :=
  { id := "je:good", timestamp := .parsed 43200000000, text := "",
    moods_detected := [.str "joy"], score := none, user_id := "u1" }

theorem malformed_entries_skipped_witness :
    counts_by_emotion ([] ++ Record.journal c7Bad :: [Record.journal c7Good])
        0 86400000000 1 =
      counts_by_emotion ([] ++ [Record.journal c7Good]) 0 86400000000 1 :=
  malformed_entries_skipped [] [Record.journal c7Good] (Record.journal c7Bad)
    0 86400000000 1 (Or.inl ⟨c7Bad, rfl, Or.inl rfl⟩)

/-! ## C1 -/

lemma linear_slope_one (x : Rat) : _linear_slope [x] = 0 := by
  show (if (1 : Nat) = 0 then (0 : Rat) else _) = 0
  norm_num [List.range, List.range.loop]

lemma emoStatsOf_single_one :
    emoStatsOf [1] = { slope := 0, mean := 1, norm_slope := 0, trend := "stable" } := by
  unfold emoStatsOf
  rw [show ([1] : List Nat).map (fun c : Nat => (c : Rat)) = [(1 : Rat)] from rfl]
  rw [linear_slope_one]
  norm_num [classifyTrend]

def c1Now : Int := 1700000000000000

def c1Entry : JournalEntry :=
  { id := "je:1", timestamp := .parsed c1Now, text := "", moods_detected := [.str "joy"],
    score := none, user_id := "u1" }

/-- C1 counterexample: with the store holding exactly one JournalEntry
tagged `["joy"]` with empty text, timestamped at the moment of analysis,
`trend_analyzer(window_days=1)` does NOT return `current["joy"] == [1]`:
the entry's day offset equals `window_days`, so `"joy"` is absent from
`current` and from `stats` altogether. -/
theorem scenarioB_counterexample :
    lookupCM ((trend_analyzer (some [Record.journal c1Entry]) c1Now 1 7).1.current) "joy" ≠
      some [1] ∧
    lookupCM ((trend_analyzer (some [Record.journal c1Entry]) c1Now 1 7).1.current) "joy" =
      none ∧
    lookupSE ((trend_analyzer (some [Record.journal c1Entry]) c1Now 1 7).1.stats) "joy" =
      none := by
  refine ⟨?_, ?_, ?_⟩ <;> decide

/-- C1 amended: if the store holds exactly one JournalEntry whose tags are
`["joy"]` and whose text is empty, timestamped on the UTC day the 1-day
window covers (the day before the day of analysis, i.e. its day start is
`window_start`), then `trend_analyzer(window_days=1)` returns
`current["joy"] == [1]` and `stats["joy"]` with slope 0, mean 1,
norm_slope 0, trend `"stable"`. -/
theorem scenarioB_amended (now t cd : Int) (j : JournalEntry)
    (hts : j.timestamp = .parsed t) (hmoods : j.moods_detected = [.str "joy"])
    (htext : j.text = "") (hday : dayStart t = windowStart now 1) :
    lookupCM ((trend_analyzer (some [Record.journal j]) now 1 cd).1.current) "joy" =
      some [1] ∧
    lookupSE ((trend_analyzer (some [Record.journal j]) now 1 cd).1.stats) "joy" =
      some { slope := 0, mean := 1, norm_slope := 0, trend := "stable" } := by
  have h1 : windowStart now 1 ≤ t ∧ t ≤ now := by
    simp only [windowStart, dayStart, usPerDay] at hday ⊢
    omega
  have hidx : (dayStart t - windowStart now 1) / usPerDay = 0 := by
    simp only [windowStart, dayStart, usPerDay] at hday ⊢
    omega
  have hcur : counts_by_emotion [Record.journal j] (windowStart now 1) now 1 =
      [("joy", [1])] := by
    unfold counts_by_emotion
    simp only [List.foldl_cons, List.foldl_nil]
    rw [show seedStep 1 [] (Record.journal j) = [] from rfl]
    simp only [scanStep, hts]
    rw [if_neg (not_not_intro h1)]
    rw [if_neg (by rw [hidx]; omega)]
    rw [hidx, hmoods]
    rfl
  rw [trend_analyzer_some_eq]
  simp only []
  rw [hcur]
  constructor
  · rfl
  · show lookupSE (statsFold [("joy", [1])] [Record.journal j]).1 "joy" = _
    simp only [statsFold, List.foldl_cons, List.foldl_nil]
    norm_num [lookupSE]
    exact emoStatsOf_single_one

def c1aNow : Int := 1700000000000000

def c1aEntry : JournalEntry :=
  { id := "je:1a", timestamp := .parsed (windowStart c1aNow 1), text := "",
    moods_detected := [.str "joy"], score := none, user_id := "u1" }

theorem scenarioB_amended_witness :
    lookupCM ((trend_analyzer (some [Record.journal c1aEntry]) c1aNow 1 7).1.current) "joy" =
      some [1] ∧
    lookupSE ((trend_analyzer (some [Record.journal c1aEntry]) c1aNow 1 7).1.stats) "joy" =
      some { slope := 0, mean := 1, norm_slope := 0, trend := "stable" } :=
  scenarioB_amended c1aNow (windowStart c1aNow 1) 7 c1aEntry rfl rfl rfl (by decide)

/-! ## C9 -/

lemma updateEmotion_seedFold (days : Int) (name tr : String) (sc : Rat) :
    ∀ (s : List Record) (m : CountsMap),
      (updateEmotion s name tr sc).foldl (seedStep days) m = s.foldl (seedStep days) m := by
  intro s
  induction s with
  | nil => intro m; rfl
  | cons r rest ih =>
    intro m
    cases r with
    | emotion e =>
      by_cases h : e.name = name
      · simp only [updateEmotion, if_pos h, List.foldl_cons, seedStep]
      · simp only [updateEmotion, if_neg h, List.foldl_cons]
        exact ih _
    | journal j => simp only [updateEmotion, List.foldl_cons]; exact ih _
    | trigger n => simp only [updateEmotion, List.foldl_cons]; exact ih _
    | corrupt => simp only [updateEmotion, List.foldl_cons]; exact ih _

lemma updateEmotion_scanFold (start endT days : Int) (name tr : String) (sc : Rat) :
    ∀ (s : List Record) (m : CountsMap),
      (updateEmotion s name tr sc).foldl (scanStep start endT days) m =
        s.foldl (scanStep start endT days) m := by
  intro s
  induction s with
  | nil => intro m; rfl
  | cons r rest ih =>
    intro m
    cases r with
    | emotion e =>
      by_cases h : e.name = name
      · simp only [updateEmotion, if_pos h, List.foldl_cons, scanStep]
      · simp only [updateEmotion, if_neg h, List.foldl_cons]
        exact ih _
    | journal j => simp only [updateEmotion, List.foldl_cons]; exact ih _
    | trigger n => simp only [updateEmotion, List.foldl_cons]; exact ih _
    | corrupt => simp only [updateEmotion, List.foldl_cons]; exact ih _

/-- The write-back changes no data `counts_by_emotion` reads. -/
lemma counts_updateEmotion (s : List Record) (name tr : String) (sc : Rat)
    (start endT days : Int) :
    counts_by_emotion (updateEmotion s name tr sc) start endT days =
      counts_by_emotion s start endT days := by
  unfold counts_by_emotion
  rw [updateEmotion_seedFold, updateEmotion_scanFold]

/-- The stats loop's accumulator components evolve independently: the
stats list never reads the store and the store never reads the stats. -/
lemma statsFold_split : ∀ (cur : CountsMap) (a : List (String × EmoStats)) (s : List Record),
    cur.foldl (fun acc p =>
      let st := emoStatsOf p.2
      (acc.1 ++ [(p.1, st)], updateEmotion acc.2 p.1 st.trend st.norm_slope)) (a, s) =
    (cur.foldl (fun a2 p => a2 ++ [(p.1, emoStatsOf p.2)]) a,
     cur.foldl (fun s2 p =>
       updateEmotion s2 p.1 (emoStatsOf p.2).trend (emoStatsOf p.2).norm_slope) s) := by
  intro cur
  induction cur with
  | nil => intro a s; rfl
  | cons p rest ih =>
    intro a s
    simp only [List.foldl_cons]
    exact ih _ _

lemma statsFold_eq (cur : CountsMap) (s : List Record) :
    statsFold cur s =
      (cur.foldl (fun a2 p => a2 ++ [(p.1, emoStatsOf p.2)]) [],
       cur.foldl (fun s2 p =>
         updateEmotion s2 p.1 (emoStatsOf p.2).trend (emoStatsOf p.2).norm_slope) s) :=
  statsFold_split cur [] s

lemma counts_foldlUpdate : ∀ (cur : CountsMap) (s : List Record) (start endT days : Int),
    counts_by_emotion
        (cur.foldl (fun s2 p =>
          updateEmotion s2 p.1 (emoStatsOf p.2).trend (emoStatsOf p.2).norm_slope) s)
        start endT days =
      counts_by_emotion s start endT days := by
  intro cur
  induction cur with
  | nil => intro s start endT days; rfl
  | cons p rest ih =>
    intro s start endT days
    simp only [List.foldl_cons]
    rw [ih, counts_updateEmotion]

/-- C9: running `trend_analyzer` twice in immediate succession (same
store contents apart from the first run's write-back, same instant, so
the same day windows) yields identical `current` and `stats`: the
write-back of `trend`/`trend_score` onto Emotion records does not change
what the second run computes. -/
theorem analyzer_idempotent (store : List Record) (now wd cd : Int) :
    (trend_analyzer ((trend_analyzer (some store) now wd cd).2) now wd cd).1.current =
      (trend_analyzer (some store) now wd cd).1.current ∧
    (trend_analyzer ((trend_analyzer (some store) now wd cd).2) now wd cd).1.stats =
      (trend_analyzer (some store) now wd cd).1.stats := by
  simp only [trend_analyzer_some_eq, statsFold_eq]
  rw [counts_foldlUpdate]
  exact ⟨rfl, rfl⟩

/-! ## C10 -/

/-- Record-level frame relation of the write-back: journal, trigger and
corrupt records unchanged; Emotion records keep `name`, `valence`,
`intensity` and `last_seen` (only `trend`/`trend_score` may differ). -/
def frameOK : Record → Record → Bool
  | .journal j, .journal j2 => j == j2
  | .emotion e, .emotion e2 =>
    e.name == e2.name && e.valence == e2.valence && e.intensity == e2.intensity &&
      e.last_seen == e2.last_seen
  | .trigger n, .trigger n2 => n == n2
  | .corrupt, .corrupt => true
  | _, _ => false

lemma frameOK_refl (r : Record) : frameOK r r = true := by
  cases r <;> simp [frameOK]

lemma frameOK_trans {a b c : Record} (h1 : frameOK a b = true) (h2 : frameOK b c = true) :
    frameOK a c = true := by
  cases a <;> cases b <;> cases c <;> simp_all [frameOK]

lemma updateEmotion_length (name tr : String) (sc : Rat) :
    ∀ s : List Record, (updateEmotion s name tr sc).length = s.length := by
  intro s
  induction s with
  | nil => rfl
  | cons r rest ih =>
    cases r with
    | emotion e =>
      by_cases h : e.name = name
      · simp [updateEmotion, if_pos h]
      · simp [updateEmotion, if_neg h, ih]
    | journal j => simp [updateEmotion, ih]
    | trigger n => simp [updateEmotion, ih]
    | corrupt => simp [updateEmotion, ih]

lemma updateEmotion_frame (name tr : String) (sc : Rat) :
    ∀ (s : List Record) (i : Nat),
      frameOK (s.getD i .corrupt) ((updateEmotion s name tr sc).getD i .corrupt) = true := by
  intro s
  induction s with
  | nil => intro i; exact frameOK_refl _
  | cons r rest ih =>
    intro i
    cases r with
    | emotion e =>
      by_cases h : e.name = name
      · cases i with
        | zero => simp [updateEmotion, if_pos h, frameOK]
        | succ k =>
          simp only [updateEmotion, if_pos h, List.getD_cons_succ]
          exact frameOK_refl _
      · cases i with
        | zero =>
          simp only [updateEmotion, if_neg h, List.getD_cons_zero]
          exact frameOK_refl _
        | succ k =>
          simp only [updateEmotion, if_neg h, List.getD_cons_succ]
          exact ih k
    | journal j =>
      cases i with
      | zero => simp only [updateEmotion, List.getD_cons_zero]; exact frameOK_refl _
      | succ k => simp only [updateEmotion, List.getD_cons_succ]; exact ih k
    | trigger n =>
      cases i with
      | zero => simp only [updateEmotion, List.getD_cons_zero]; exact frameOK_refl _
      | succ k => simp only [updateEmotion, List.getD_cons_succ]; exact ih k
    | corrupt =>
      cases i with
      | zero => simp only [updateEmotion, List.getD_cons_zero]; exact frameOK_refl _
      | succ k => simp only [updateEmotion, List.getD_cons_succ]; exact ih k

lemma foldlUpdate_frame : ∀ (cur : CountsMap) (s : List Record) (i : Nat),
    frameOK (s.getD i .corrupt)
      ((cur.foldl (fun s2 p =>
        updateEmotion s2 p.1 (emoStatsOf p.2).trend (emoStatsOf p.2).norm_slope) s).getD
          i .corrupt) = true := by
  intro cur
  induction cur with
  | nil => intro s i; exact frameOK_refl _
  | cons p rest ih =>
    intro s i
    simp only [List.foldl_cons]
    exact frameOK_trans (updateEmotion_frame _ _ _ s i) (ih _ i)

lemma foldlUpdate_length : ∀ (cur : CountsMap) (s : List Record),
    (cur.foldl (fun s2 p =>
      updateEmotion s2 p.1 (emoStatsOf p.2).trend (emoStatsOf p.2).norm_slope) s).length =
      s.length := by
  intro cur
  induction cur with
  | nil => intro s; rfl
  | cons p rest ih =>
    intro s
    simp only [List.foldl_cons]
    rw [ih, updateEmotion_length]

lemma updateEmotion_nomatch (name tr : String) (sc : Rat) :
    ∀ s : List Record, (∀ r ∈ s, isEmotionNamed name r = false) →
      updateEmotion s name tr sc = s := by
  intro s
  induction s with
  | nil => intro _; rfl
  | cons r rest ih =>
    intro hall
    have hr := hall r (List.mem_cons_self _ _)
    have hrest : ∀ r2 ∈ rest, isEmotionNamed name r2 = false :=
      fun r2 h2 => hall r2 (List.mem_cons_of_mem _ h2)
    cases r with
    | emotion e =>
      have hne : ¬(e.name = name) := by simpa [isEmotionNamed] using hr
      simp [updateEmotion, if_neg hne, ih hrest]
    | journal j => simp [updateEmotion, ih hrest]
    | trigger n => simp [updateEmotion, ih hrest]
    | corrupt => simp [updateEmotion, ih hrest]

lemma updateEmotion_first (name tr : String) (sc : Rat) :
    ∀ (s : List Record) (i : Nat),
      (updateEmotion s name tr sc).getD i .corrupt ≠ s.getD i .corrupt →
      isEmotionNamed name (s.getD i .corrupt) = true ∧
      ∀ j2, j2 < i → isEmotionNamed name (s.getD j2 .corrupt) = false := by
  intro s
  induction s with
  | nil => intro i h; exact absurd rfl h
  | cons r rest ih =>
    intro i h
    cases r with
    | emotion e =>
      by_cases he : e.name = name
      · cases i with
        | zero =>
          exact ⟨by simp [isEmotionNamed, he], fun j2 hj2 => absurd hj2 (Nat.not_lt_zero _)⟩
        | succ k =>
          simp only [updateEmotion, if_pos he, List.getD_cons_succ] at h
          exact absurd rfl h
      · cases i with
        | zero =>
          simp only [updateEmotion, if_neg he, List.getD_cons_zero] at h
          exact absurd rfl h
        | succ k =>
          have h2 : (updateEmotion rest name tr sc).getD k .corrupt ≠
              rest.getD k .corrupt := by
            simpa [updateEmotion, if_neg he] using h
          obtain ⟨ha, hb⟩ := ih k h2
          refine ⟨ha, fun j2 hj2 => ?_⟩
          cases j2 with
          | zero => simp [isEmotionNamed, he]
          | succ l => exact hb l (Nat.succ_lt_succ_iff.mp hj2)
    | journal j =>
      cases i with
      | zero =>
        simp only [updateEmotion, List.getD_cons_zero] at h
        exact absurd rfl h
      | succ k =>
        have h2 : (updateEmotion rest name tr sc).getD k .corrupt ≠
            rest.getD k .corrupt := by
          simpa [updateEmotion] using h
        obtain ⟨ha, hb⟩ := ih k h2
        refine ⟨ha, fun j2 hj2 => ?_⟩
        cases j2 with
        | zero => simp [isEmotionNamed]
        | succ l => exact hb l (Nat.succ_lt_succ_iff.mp hj2)
    | trigger n =>
      cases i with
      | zero =>
        simp only [updateEmotion, List.getD_cons_zero] at h
        exact absurd rfl h
      | succ k =>
        have h2 : (updateEmotion rest name tr sc).getD k .corrupt ≠
            rest.getD k .corrupt := by
          simpa [updateEmotion] using h
        obtain ⟨ha, hb⟩ := ih k h2
        refine ⟨ha, fun j2 hj2 => ?_⟩
        cases j2 with
        | zero => simp [isEmotionNamed]
        | succ l => exact hb l (Nat.succ_lt_succ_iff.mp hj2)
    | corrupt =>
      cases i with
      | zero =>
        simp only [updateEmotion, List.getD_cons_zero] at h
        exact absurd rfl h
      | succ k =>
        have h2 : (updateEmotion rest name tr sc).getD k .corrupt ≠
            rest.getD k .corrupt := by
          simpa [updateEmotion] using h
        obtain ⟨ha, hb⟩ := ih k h2
        refine ⟨ha, fun j2 hj2 => ?_⟩
        cases j2 with
        | zero => simp [isEmotionNamed]
        | succ l => exact hb l (Nat.succ_lt_succ_iff.mp hj2)

/-- C10: the only store mutation of `trend_analyzer` is the write-back:
the store keeps its length (no record created or deleted) and every
record keeps its frame (`frameOK`): JournalEntry, Trigger and other
records are untouched and Emotion records keep `name`, `valence`,
`intensity`, `last_seen`.  Moreover one `updateEmotion` call leaves the
store unchanged when no Emotion record matches (no category is created),
and any index it changes is the first matching Emotion record (so at
most one record changes per classified emotion). -/
theorem writeback_frame :
    (∀ (store : List Record) (now wd cd : Int) (out : List Record),
      (trend_analyzer (some store) now wd cd).2 = some out →
      out.length = store.length ∧
      ∀ i : Nat, frameOK (store.getD i .corrupt) (out.getD i .corrupt) = true) ∧
    (∀ (s : List Record) (name tr : String) (sc : Rat),
      (∀ r ∈ s, isEmotionNamed name r = false) → updateEmotion s name tr sc = s) ∧
    (∀ (s : List Record) (name tr : String) (sc : Rat) (i : Nat),
      (updateEmotion s name tr sc).getD i .corrupt ≠ s.getD i .corrupt →
      isEmotionNamed name (s.getD i .corrupt) = true ∧
      ∀ j2, j2 < i → isEmotionNamed name (s.getD j2 .corrupt) = false) := by
  refine ⟨?_, fun s name tr sc h => updateEmotion_nomatch name tr sc s h,
    fun s name tr sc i h => updateEmotion_first name tr sc s i h⟩
  intro store now wd cd out hout
  rw [trend_analyzer_some_eq, statsFold_eq] at hout
  simp only [Option.some.injEq] at hout
  subst hout
  exact ⟨foldlUpdate_length _ _, fun i => foldlUpdate_frame _ _ i⟩

def w10Store : List Record := [Record.trigger "x"]

def w10Emo : Emotion := ⟨"joy", 0, 0, none, none, none⟩

theorem writeback_frame_witness :
    ((trend_analyzer (some w10Store) 1700000000000000 1 1).2 = some w10Store ∧
      w10Store.length = w10Store.length ∧
      frameOK (w10Store.getD 0 .corrupt) (w10Store.getD 0 .corrupt) = true) ∧
    updateEmotion [Record.journal c7Good] "joy" "stable" 0 = [Record.journal c7Good] ∧
    (isEmotionNamed "joy" (([Record.emotion w10Emo] : List Record).getD 0 .corrupt) = true ∧
      ∀ j2, j2 < 0 →
        isEmotionNamed "joy" (([Record.emotion w10Emo] : List Record).getD j2 .corrupt) =
          false) := by
  have h1 : (trend_analyzer (some w10Store) 1700000000000000 1 1).2 = some w10Store := by
    decide
  have h2 := (writeback_frame.1 w10Store 1700000000000000 1 1 w10Store h1)
  refine ⟨⟨h1, h2.1, h2.2 0⟩, ?_, ?_⟩
  · exact writeback_frame.2.1 [Record.journal c7Good] "joy" "stable" 0 (by decide)
  · exact writeback_frame.2.2 [Record.emotion w10Emo] "joy" "stable" 0 0 (by decide)
